import Mathlib

/-!
Verification development for the token-search / mint-orchestration core of the
repository: a shallow embedding of `EnhancedSearchEngine` (enhanced-search.ts),
the token format adapters, and the `useMintPosition` / `useSendCalls`
transaction-orchestration hooks, together with proofs of the documented
properties.

Conventions of the embedding:
* JavaScript numbers are modelled as `ℚ` (the scores and filter bounds are
  small decimal literals and comparisons, where rational arithmetic agrees
  with the source), on-chain `bigint` values as `ℤ`.
* A JavaScript field that may be absent (`undefined`) is an `Option`; a field
  that may be absent or `null` is an `Option (Option _)` (outer `none` =
  absent, `some none` = `null`).
* Code that can throw is modelled in `Except String`; the string is the
  message of the thrown error.
-/

namespace TokenApp

/-! ### String and JS-number helpers -/

/-- Lower-casing of a JS string (`s.toLowerCase()`), character by character. -/
def strLower (s : String) : String := String.mk (s.data.map Char.toLower)

/-- `listStarts a b` : does the character list `a` start with `b`?
Models `a.startsWith(b)` on JS strings. -/
def listStarts : List Char → List Char → Bool
  | _, [] => true
  | [], _ :: _ => false
  | a :: as, b :: bs => a == b && listStarts as bs

/-- `listContains a b` : does `b` occur as a contiguous substring of `a`?
Models `a.includes(b)` on JS strings. -/
def listContains : List Char → List Char → Bool
  | [], b => listStarts [] b
  | l@(_ :: rest), b => listStarts l b || listContains rest b

/-- Models `s.startsWith(q)`. -/
def strStarts (s q : String) : Bool := listStarts s.data q.data

/-- Models `s.includes(q)`. -/
def strContains (s q : String) : Bool := listContains s.data q.data

/-- Models the test `!s.trim()` (the string is empty or all whitespace). -/
def isBlank (s : String) : Bool := s.data.all fun c => c.isWhitespace

/-- Multiplication of rationals in a kernel-reducible form
(`Rat.mul` is `@[irreducible]`); `ratMul_eq` below proves it is `a * b`. -/
def ratMul (a b : ℚ) : ℚ := mkRat (a.num * b.num) (a.den * b.den)

/-- `Math.max` on two rationals, in `if`-form. -/
def jsMax (a b : ℚ) : ℚ := if a ≤ b then b else a

/-- `Math.min` on two rationals, in `if`-form. -/
def jsMin (a b : ℚ) : ℚ := if a ≤ b then a else b

/-! ### Data model and `searchTokens` (enhanced-search.ts) -/

/-- The unified `Token` shape of `types/token.ts` (with the
`TokenWithBalance` extension fields as optional members, since the search
engine accepts `Token | TokenWithBalance`).  `name` is required by the
interface; it is an `Option` here so that malformed runtime records that lack
it can be expressed. -/
structure Token where
  address : String
  symbol : String
  decimals : Nat
  name : Option String
  chainId : String
  label : Option String := none
  icon : Option String := none
  isNative : Option Bool := none
  tags : Option (List String) := none
  chainName : Option String := none
  amount : Option String := none
  valueUsd : Option (Option ℚ) := none
  priceUsd : Option (Option ℚ) := none
  lowLiquidity : Option Bool := none
deriving DecidableEq, Repr

/-- `SearchResult` of enhanced-search.ts. -/
structure SearchResult where
  token : Token
  score : ℚ
  matchedFields : List String
  exactMatch : Bool
deriving DecidableEq, Repr

/-- The options object of `searchTokens` with its default values. -/
structure SearchOptions where
  enableFuzzy : Bool := true
  enableSmartRanking : Bool := true
  threshold : ℚ := mkRat 1 10
  maxResults : Nat := 50
deriving Repr

/-- `calculateFuzzyScore(text, query)`: greedy count of query characters
matched in order inside `text`, divided by the query length. -/
def countSubseq : List Char → List Char → Nat
  | [], _ => 0
  | _ :: _, [] => 0
  | c :: ts, q :: qs => if c == q then 1 + countSubseq ts qs else countSubseq ts (q :: qs)

/-- `calculateFuzzyScore` of enhanced-search.ts. -/
def calculateFuzzyScore (text q : String) : ℚ :=
  if q.length = 0 then 1
  else if text.length = 0 then 0
  else mkRat (countSubseq text.data q.data) q.length

/-- `calculateFieldScore(field, query, enableFuzzy)` of enhanced-search.ts.
`query` is already lower-cased by the caller. -/
def calculateFieldScore (field q : String) (enableFuzzy : Bool) : ℚ :=
  let fieldLower := strLower field
  if fieldLower = q then 1
  else if strStarts fieldLower q then mkRat 9 10
  else if strContains fieldLower q then mkRat 7 10
  else if enableFuzzy then
    let fuzzyScore := calculateFuzzyScore fieldLower q
    if fuzzyScore > mkRat 3 5 then ratMul fuzzyScore (mkRat 1 2) else 0
  else 0

/-- The mutable accumulator (`maxScore`, `matchedFields`, `exactMatch`) of the
per-token loop in `searchTokens`. -/
structure ScoreAcc where
  maxScore : ℚ
  matchedFields : List String
  exactMatch : Bool
deriving DecidableEq, Repr

/-- The symbol block of the per-token loop: weight 1.0, records an exact
match when `token.symbol.toLowerCase() === queryLower`. -/
def symbolStep (symbol q : String) (enableFuzzy : Bool) : ScoreAcc :=
  if 0 < calculateFieldScore symbol q enableFuzzy then
    ⟨jsMax 0 (ratMul (calculateFieldScore symbol q enableFuzzy) 1), ["symbol"],
      strLower symbol == q⟩
  else ⟨0, [], false⟩

/-- The name block of the per-token loop: weight 0.8. -/
def nameStep (acc : ScoreAcc) (nameStr q : String) (enableFuzzy : Bool) : ScoreAcc :=
  if 0 < calculateFieldScore nameStr q enableFuzzy then
    ⟨jsMax acc.maxScore (ratMul (calculateFieldScore nameStr q enableFuzzy) (mkRat 8 10)),
      acc.matchedFields ++ ["name"], acc.exactMatch || (strLower nameStr == q)⟩
  else acc

/-- The address block of the per-token loop: weight 0.9, fuzzy disabled. -/
def addressStep (acc : ScoreAcc) (address q : String) : ScoreAcc :=
  if 0 < calculateFieldScore address q false then
    ⟨jsMax acc.maxScore (ratMul (calculateFieldScore address q false) (mkRat 9 10)),
      acc.matchedFields ++ ["address"], acc.exactMatch || (strLower address == q)⟩
  else acc

/-- The symbol / name / address part of the per-token loop of `searchTokens`.
`nameStr` is the token's `name` (the caller has already checked presence,
mirroring the unguarded `token.name` access). -/
def scoreCore (symbol nameStr address q : String) (enableFuzzy : Bool) : ScoreAcc :=
  addressStep (nameStep (symbolStep symbol q enableFuzzy) nameStr q enableFuzzy) address q

/-- The `chainName` part of the per-token loop (`if (token.chainName) …`;
an empty string is falsy in JS and is skipped). -/
def chainStep (acc : ScoreAcc) (chainName : Option String) (q : String)
    (enableFuzzy : Bool) : ScoreAcc :=
  match chainName with
  | none => acc
  | some c =>
    if c = "" then acc
    else if 0 < calculateFieldScore c q enableFuzzy then
      ⟨jsMax acc.maxScore (ratMul (calculateFieldScore c q enableFuzzy) (mkRat 6 10)),
        acc.matchedFields ++ ["chainName"], acc.exactMatch⟩
    else acc

/-- One iteration of the tag loop of `searchTokens`. -/
def tagStep (q : String) (enableFuzzy : Bool) (acc : ScoreAcc) (tag : String) : ScoreAcc :=
  if 0 < calculateFieldScore tag q enableFuzzy then
    ⟨jsMax acc.maxScore (ratMul (calculateFieldScore tag q enableFuzzy) (mkRat 7 10)),
      acc.matchedFields ++ ["tags"], acc.exactMatch⟩
  else acc

/-- The tag part of the per-token loop (`if (token.tags) for (const tag of …)`). -/
def tagsStep (acc : ScoreAcc) (tags : Option (List String)) (q : String)
    (enableFuzzy : Bool) : ScoreAcc :=
  match tags with
  | none => acc
  | some l => l.foldl (tagStep q enableFuzzy) acc

/-- Total per-token scoring, given the token's `name` string. -/
def scoreTokenTotal (t : Token) (nameStr q : String) (enableFuzzy : Bool) : ScoreAcc :=
  tagsStep (chainStep (scoreCore t.symbol nameStr t.address q enableFuzzy)
    t.chainName q enableFuzzy) t.tags q enableFuzzy

/-- Per-token scoring as it runs: accessing `token.name` on a record that
lacks the field throws a `TypeError` inside `calculateFieldScore`. -/
def scoreToken (t : Token) (q : String) (enableFuzzy : Bool) : Except String ScoreAcc :=
  match t.name with
  | none => .error "TypeError: Cannot read properties of undefined (reading toLowerCase)"
  | some n => .ok (scoreTokenTotal t n q enableFuzzy)

/-- Score every token in order, propagating the first thrown error
(the `for (const token of tokens)` loop). -/
def scoreAll (tokens : List Token) (q : String) (enableFuzzy : Bool) :
    Except String (List (Token × ScoreAcc)) :=
  match tokens with
  | [] => .ok []
  | t :: rest =>
    match scoreToken t q enableFuzzy with
    | .error e => .error e
    | .ok acc =>
      match scoreAll rest q enableFuzzy with
      | .error e => .error e
      | .ok l => .ok ((t, acc) :: l)

/-- The threshold test and result construction
(`if (maxScore >= threshold) results.push({…, score: Math.min(maxScore, 1), …})`). -/
def mkResult (threshold : ℚ) (t : Token) (acc : ScoreAcc) : Option SearchResult :=
  if threshold ≤ acc.maxScore then
    some ⟨t, jsMin acc.maxScore 1, acc.matchedFields, acc.exactMatch⟩
  else none

/-- The sort comparator of `searchTokens` as a relation: `a` sorts no later
than `b` iff `a` is an exact match and `b` is not, or they agree on
`exactMatch` and `a.score ≥ b.score`. -/
def resBefore (a b : SearchResult) : Bool :=
  (a.exactMatch && !b.exactMatch) ||
    ((a.exactMatch == b.exactMatch) && decide (b.score ≤ a.score))

/-- The comparator as a relation for sorting. -/
def resRel (a b : SearchResult) : Prop := resBefore a b = true

instance : DecidableRel resRel := fun a b => instDecidableEqBool (resBefore a b) true

/-- `searchTokens(tokens, query, options)` of enhanced-search.ts.  A blank
query returns every token with a flat score of 0.5; otherwise tokens are
scored, filtered by `threshold`, sorted by `(exactMatch desc, score desc)`
(JS `Array.prototype.sort` is stable, as is insertion sort) and truncated to
`maxResults`. -/
def searchTokens (tokens : List Token) (query : String) (opts : SearchOptions) :
    Except String (List SearchResult) :=
  if isBlank query then
    .ok (tokens.map fun t => ⟨t, mkRat 1 2, [], false⟩)
  else
    let queryLower := strLower query
    match scoreAll tokens queryLower opts.enableFuzzy with
    | .error e => .error e
    | .ok scored =>
      let results := scored.filterMap fun p => mkResult opts.threshold p.1 p.2
      .ok ((List.insertionSort resRel results).take opts.maxResults)

instance {e a : Type} [DecidableEq e] [DecidableEq a] : DecidableEq (Except e a) := fun x y =>
  match x, y with
  | .error u, .error v =>
    if h : u = v then .isTrue (by rw [h]) else .isFalse (fun hc => by cases hc; exact h rfl)
  | .ok u, .ok v =>
    if h : u = v then .isTrue (by rw [h]) else .isFalse (fun hc => by cases hc; exact h rfl)
  | .error _, .ok _ => .isFalse (fun hc => by cases hc)
  | .ok _, .error _ => .isFalse (fun hc => by cases hc)

instance : IsTotal SearchResult resRel := by
  constructor
  intro a b
  unfold resRel resBefore
  cases hae : a.exactMatch <;> cases hbe : b.exactMatch <;>
    simp only [Bool.true_and, Bool.false_and, Bool.and_true, Bool.and_false, Bool.not_true,
      Bool.not_false, Bool.true_or, Bool.false_or, Bool.or_false, Bool.or_true, beq_self_eq_true,
      Bool.and_self, decide_eq_true_eq, Bool.true_eq, Bool.false_eq, beq_iff_eq]
  · exact le_total b.score a.score
  · simp
  · simp
  · exact le_total b.score a.score

instance : IsTrans SearchResult resRel := by
  constructor
  intro a b c hab hbc
  unfold resRel resBefore at *
  cases hae : a.exactMatch <;> cases hbe : b.exactMatch <;> cases hce : c.exactMatch <;>
    simp_all <;> linarith

/-! ### `applyAdvancedFilters` (enhanced-search.ts) -/

/-- A price/balance range of `AdvancedFilters` (`min`/`max` both optional). -/
structure RangeFilter where
  min : Option ℚ := none
  max : Option ℚ := none
deriving DecidableEq, Repr

/-- `AdvancedFilters` of enhanced-search.ts.  `categories` holds the
(lowercase) `TokenCategory` string values. -/
structure AdvancedFilters where
  priceRange : Option RangeFilter := none
  balanceRange : Option RangeFilter := none
  verifiedOnly : Option Bool := none
  nativeOnly : Option Bool := none
  hasBalance : Option Bool := none
  excludeLowLiquidity : Option Bool := none
  tags : Option (List String) := none
  excludeTags : Option (List String) := none
  categories : Option (List String) := none
  chains : Option (List String) := none
  chainIds : Option (List String) := none
deriving DecidableEq, Repr

/-- Digit run to a natural number. -/
def digitsVal (l : List Char) : Nat := l.foldl (fun acc c => acc * 10 + (c.toNat - '0'.toNat)) 0

/-- Model of `Number.parseFloat` (a collaborator built-in) on the decimal
strings this code feeds it: optional leading whitespace and sign, a digit run
with an optional fractional part, trailing garbage ignored; `none` is `NaN`. -/
def parseFloatQ (s : String) : Option ℚ :=
  let l0 := s.data.dropWhile (·.isWhitespace)
  let neg := match l0 with
    | '-' :: _ => true
    | _ => false
  let l := match l0 with
    | '-' :: rest => rest
    | '+' :: rest => rest
    | _ => l0
  let intPart := l.takeWhile (·.isDigit)
  let afterInt := l.drop intPart.length
  let fracPart := match afterInt with
    | '.' :: rest => rest.takeWhile (·.isDigit)
    | _ => []
  if intPart.isEmpty && fracPart.isEmpty then none
  else
    some (mkRat ((if neg then (-1 : ℤ) else 1) *
      (digitsVal intPart * 10 ^ fracPart.length + digitsVal fracPart)) (10 ^ fracPart.length))

/-- The price-range predicate: a token without a `priceUsd` field, or with a
`null` one, is kept. -/
def priceKeep (r : RangeFilter) (t : Token) : Bool :=
  match t.priceUsd with
  | some (some price) =>
    (match r.min with | some m => decide (m ≤ price) | none => true) &&
    (match r.max with | some m => decide (price ≤ m) | none => true)
  | _ => true

/-- The balance-range predicate over `valueUsd`, same shape as `priceKeep`. -/
def balanceKeep (r : RangeFilter) (t : Token) : Bool :=
  match t.valueUsd with
  | some (some v) =>
    (match r.min with | some m => decide (m ≤ v) | none => true) &&
    (match r.max with | some m => decide (v ≤ m) | none => true)
  | _ => true

/-- `token.tags?.includes("verified")`. -/
def verifiedKeep (t : Token) : Bool :=
  match t.tags with
  | some ts => ts.contains "verified"
  | none => false

/-- `token.isNative === true`. -/
def nativeKeep (t : Token) : Bool := t.isNative == some true

/-- `"amount" in token && Number.parseFloat(token.amount) > 0`
(`NaN > 0` is false). -/
def hasBalanceKeep (t : Token) : Bool :=
  match t.amount with
  | some a => match parseFloatQ a with
    | some v => decide (0 < v)
    | none => false
  | none => false

/-- `"lowLiquidity" in token ? !token.lowLiquidity : true`. -/
def lowLiqKeep (t : Token) : Bool :=
  match t.lowLiquidity with
  | some b => !b
  | none => true

/-- `allowedChains.includes(token.chainId)`. -/
def chainsKeep (allowed : List String) (t : Token) : Bool := allowed.contains t.chainId

/-- `token.tags` intersects the lower-cased category values. -/
def categoriesKeep (cats : List String) (t : Token) : Bool :=
  match t.tags with
  | none => false
  | some ts => cats.any fun cat => ts.contains (strLower cat)

/-- A range stage (`priceRange` / `balanceRange`): active only when `min` or
`max` is present. -/
def stageRange (ro : Option RangeFilter) (keep : RangeFilter → Token → Bool)
    (l : List Token) : List Token :=
  match ro with
  | some r => if r.min.isSome || r.max.isSome then l.filter (keep r) else l
  | none => l

/-- A boolean-flag stage (`verifiedOnly`, `nativeOnly`, `hasBalance`,
`excludeLowLiquidity`, the chain allow-list): filter only when the flag is
truthy. -/
def stageBool (cond : Bool) (p : Token → Bool) (l : List Token) : List Token :=
  if cond then l.filter p else l

/-- The category stage: active only for a present, non-empty list. -/
def stageCategories (co : Option (List String)) (l : List Token) : List Token :=
  match co with
  | some cats => if !cats.isEmpty then l.filter (categoriesKeep cats) else l
  | none => l

/-- `applyAdvancedFilters(tokens, filters)` of enhanced-search.ts: the
sequential AND-chain of the eight filter blocks, each a no-op when its
field is undefined (or falsy). -/
def applyAdvancedFilters (tokens : List Token) (f : AdvancedFilters) : List Token :=
  let l1 := stageRange f.priceRange priceKeep tokens
  let l2 := stageRange f.balanceRange balanceKeep l1
  let l3 := stageBool (f.verifiedOnly.getD false) verifiedKeep l2
  let l4 := stageBool (f.nativeOnly.getD false) nativeKeep l3
  let l5 := stageBool (f.hasBalance.getD false) hasBalanceKeep l4
  let l6 := stageBool (f.excludeLowLiquidity.getD false) lowLiqKeep l5
  let l7 := stageBool (!(f.chains.getD []).isEmpty || !(f.chainIds.getD []).isEmpty)
    (chainsKeep (f.chains.getD [] ++ f.chainIds.getD [])) l6
  stageCategories f.categories l7

/-- A range stage as a total keep-predicate. -/
def rangeKeepTotal (ro : Option RangeFilter) (keep : RangeFilter → Token → Bool)
    (t : Token) : Bool :=
  match ro with
  | some r => if r.min.isSome || r.max.isSome then keep r t else true
  | none => true

/-- The category stage as a total keep-predicate. -/
def categoriesKeepTotal (co : Option (List String)) (t : Token) : Bool :=
  match co with
  | some cats => if !cats.isEmpty then categoriesKeep cats t else true
  | none => true

/-- The whole filter chain as one conjunction (innermost stage last, matching
the composition order of `applyAdvancedFilters`). -/
def keepAll (f : AdvancedFilters) (t : Token) : Bool :=
  categoriesKeepTotal f.categories t &&
    ((if !(f.chains.getD []).isEmpty || !(f.chainIds.getD []).isEmpty then
        chainsKeep (f.chains.getD [] ++ f.chainIds.getD []) t else true) &&
      ((if f.excludeLowLiquidity.getD false then lowLiqKeep t else true) &&
        ((if f.hasBalance.getD false then hasBalanceKeep t else true) &&
          ((if f.nativeOnly.getD false then nativeKeep t else true) &&
            ((if f.verifiedOnly.getD false then verifiedKeep t else true) &&
              (rangeKeepTotal f.balanceRange balanceKeep t &&
                rangeKeepTotal f.priceRange priceKeep t))))))

/-! ### Concrete tokens used by the scenarios -/

def tUSDC : Token :=
  { address := "0xA0b86991c6218b36c1d19D4a2e9Eb0cE3606eB48", symbol := "USDC",
    decimals := 6, name := some "USD Coin", chainId := "1" }

def tUsdcLower : Token :=
  { address := "0x2791Bca1f2de4661ED88A30C99A7a9449Aa84174", symbol := "usdc",
    decimals := 6, name := some "Bridged Coin", chainId := "137" }

def tBridged : Token :=
  { address := "0x3c499c542cEF5E3811e1192ce70d8cC03d5c3359", symbol := "usdc-bridged",
    decimals := 6, name := some "Bridged USDC", chainId := "137" }

def tEmptySym : Token :=
  { address := "0x0000000000000000000000000000000000001010", symbol := "",
    decimals := 18, name := some "Anonymous", chainId := "137" }

def tNoName : Token :=
  { address := "0x1111111111111111111111111111111111111111", symbol := "MYST",
    decimals := 18, name := none, chainId := "1" }

def tPlain : Token :=
  { address := "0x2222222222222222222222222222222222222222", symbol := "PLN",
    decimals := 18, name := some "Plain", chainId := "1" }

/-! ### Token format adapters (TokenFormatAdapter) -/

/-- The normalized Solana chain id. -/
def SOLANA_CHAIN_ID : String := "solana"

/-- `TokenFormatAdapter.normalizeChainId` (chain ids reach it stringified in
`balanceToToken`): the relay number for Solana becomes `"solana"`. -/
def normalizeChainId (chainId : String) : String :=
  if chainId = "792703809" then SOLANA_CHAIN_ID else chainId

/-- `BalanceData` of the adapter module (`token_metadata` flattened into its
two used fields). -/
structure BalanceData where
  address : String
  symbol : String
  decimals : Nat
  name : String
  chain_id : Option String := none
  chain : Option String := none
  amount : Option String := none
  value_usd : Option ℚ := none
  price_usd : Option ℚ := none
  logo : Option String := none
  verified : Option Bool := none
  low_liquidity : Option Bool := none
deriving DecidableEq, Repr

/-- JS `a || b` on an optional string (`undefined` and `""` are falsy). -/
def jsOrStr (a : Option String) (b : String) : String :=
  match a with
  | some s => if s = "" then b else s
  | none => b

/-- `TokenFormatAdapter.balanceToToken`. -/
def balanceToToken (b : BalanceData) : Token :=
  { address := b.address
    symbol := b.symbol
    decimals := b.decimals
    name := some b.name
    chainId := normalizeChainId (jsOrStr b.chain_id (jsOrStr b.chain SOLANA_CHAIN_ID))
    icon := b.logo
    isNative := some (b.address == "native" ||
      b.address == "0xeeeeeeeeeeeeeeeeeeeeeeeeeeeeeeeeeeeeeeee")
    tags := if b.verified = some true then some ["verified"] else none }

/-- `TokenUtils.isNativeToken` of types/token.ts (the checker, distinct from
the adapter's flag). -/
def isNativeToken (t : Token) : Bool :=
  t.isNative == some true ||
    t.address == "0x0000000000000000000000000000000000000000" ||
    strLower t.address == "0xeeeeeeeeeeeeeeeeeeeeeeeeeeeeeeeeeeeeeeee"

/-- A balance row carrying the zero-address sentinel. -/
def zeroAddrRecord : BalanceData :=
  { address := "0x0000000000000000000000000000000000000000", symbol := "ETH",
    decimals := 18, name := "Ether", chain_id := some "1" }

/-! ### Mint orchestrator (useMintPosition / useBalanceChecks) -/

/-- The `Status` union of useMintPosition (kebab-case names made Lean
identifiers). -/
inductive Status where
  | idle
  | checkingBalance
  | preparing
  | checkingAllowance
  | executing
  | confirming
  | success
  | error
deriving DecidableEq, Repr

/-- `BalanceInfo` of use-balance-checks: `hasSufficientBalance` is stored as
computed there (`balance >= requiredAmount`, or `false` with `balance = 0`
when the balance fetch failed). -/
structure BalanceInfo where
  address : String
  chainId : Int
  decimals : Nat
  balance : Int
  requiredAmount : Int
  hasSufficientBalance : Bool
deriving DecidableEq, Repr

def zeroAddress : String := "0x0000000000000000000000000000000000000000"

/-- Left-pad a digit list with zeros to length `n` (`String.padStart`). -/
def padStartZeros (s : List Char) (n : Nat) : List Char :=
  List.replicate (n - s.length) '0' ++ s

/-- Strip trailing zeros (`fraction.replace(/(0+)$/, "")`). -/
def dropTrailingZeros (s : List Char) : List Char :=
  (s.reverse.dropWhile (· == '0')).reverse

/-- viem's `formatUnits` (an external collaborator whose output the advisory
string quotes): print `value` scaled down by `10^decimals`, fraction
trimmed of trailing zeros. -/
def formatUnits (value : Int) (decimals : Nat) : String :=
  let digits := (toString value.natAbs).data
  let display := padStartZeros digits decimals
  let integer := display.take (display.length - decimals)
  let fraction := dropTrailingZeros (display.drop (display.length - decimals))
  (if value < 0 then "-" else "") ++
    (if integer.isEmpty then "0" else String.mk integer) ++
    (if fraction.isEmpty then "" else "." ++ String.mk fraction)

/-- `getTokenSymbol` of useMintPosition (both tokens are present at every
call site). -/
def getTokenSymbol (tokenA tokenB : Token) (address : String) : String :=
  if strLower address = strLower zeroAddress then "ETH"
  else if strLower tokenA.address = strLower address then tokenA.symbol
  else if strLower tokenB.address = strLower address then tokenB.symbol
  else "Token"

/-- The body of the `balanceError` memo once the guards have passed. -/
def balanceErrorCore (a b : Token) (balances : List BalanceInfo) : Option String :=
  match balances.filter fun bi => !bi.hasSufficientBalance with
  | [] => none
  | [bi] => some ("Need " ++ formatUnits (bi.requiredAmount - bi.balance) bi.decimals ++
      " more " ++ getTokenSymbol a b bi.address)
  | bi1 :: bi2 :: rest => some ("Insufficient " ++
      String.intercalate " and "
        ((bi1 :: bi2 :: rest).map fun bi => getTokenSymbol a b bi.address) ++ " balance")

/-- The `balanceError` memo of useMintPosition. -/
def balanceError (balancesLoading : Bool) (tokenA tokenB : Option Token)
    (balances : List BalanceInfo) : Option String :=
  match tokenA, tokenB with
  | some a, some b =>
    if balancesLoading || balances.isEmpty then none
    else balanceErrorCore a b balances
  | _, _ => none

/-- Encoded calldata of a batched call: either the erc20 `approve(spender,
amount)` encoding or the prepared mint payload passed through. -/
inductive CallData where
  | approve (spender : String) (amount : Int)
  | raw (hex : String)
deriving DecidableEq, Repr

/-- One call of the submitted batch. -/
structure Call where
  «to» : String
  data : CallData
  value : Int
deriving DecidableEq, Repr

/-- The mint-preparation backend's reply (`success`/`transactionData` or a
failure message; an empty message models a missing one). -/
inductive PrepareResult where
  | failure (message : String)
  | success (txTo : String) (txData : String) (txValue : Option Int)
deriving DecidableEq, Repr

/-- The external world `execute()` interacts with: the preparation backend's
reply and the outcome of each on-chain allowance read (`.error` = the read
threw). -/
structure ExecEnv where
  prepare : PrepareResult
  allowance : String → Except String Int

/-- What one `execute()` run did: final status, stored error, whether the
preparation backend was invoked, and the call batch handed to `sendCalls`
(if reached). -/
structure ExecOutcome where
  status : Status
  error : Option String
  prepareInvoked : Bool
  submitted : Option (List Call)
deriving DecidableEq, Repr

/-- The per-token allowance check of `execute()` step 4: an approval for the
full required amount is collected when the read value is below it, or when
the read throws. -/
def approvalFor (allowanceRes : Except String Int) (tokenAddr routerAddr : String)
    (amount : Int) : Option Call :=
  match allowanceRes with
  | .ok currentAllowance =>
    if currentAllowance < amount then
      some { «to» := tokenAddr, data := .approve routerAddr amount, value := 0 }
    else none
  | .error _ =>
    some { «to» := tokenAddr, data := .approve routerAddr amount, value := 0 }

/-- `useMintPosition.execute()`: the synchronous skeleton of the async flow.
`amtA`/`amtB` are the `parseUnits(amount, decimals)` scalings of the decimal
inputs (viem is an external collaborator; its parsed values are inputs
here).  Balance check, preparation, allowance checks, batch assembly
(approvals in token order, then the mint call), submission. -/
def execute (tokenA tokenB : Option Token) (owner : Option String) (amtA amtB : Int)
    (balances : List BalanceInfo) (env : ExecEnv) : ExecOutcome :=
  match tokenA, tokenB, owner with
  | some a, some b, some _ =>
    if balances.any fun bi => !bi.hasSufficientBalance then
      { status := .idle, error := none, prepareInvoked := false, submitted := none }
    else
      match env.prepare with
      | .failure message =>
        { status := .error,
          error := some (if message = "" then "Failed to prepare transaction" else message),
          prepareInvoked := true, submitted := none }
      | .success txTo txData txValue =>
        let tokensToCheck := [(a.address, amtA), (b.address, amtB)]
        let erc20Tokens := tokensToCheck.filter fun p =>
          !(strLower p.1 == strLower zeroAddress)
        let approvalSteps := erc20Tokens.filterMap fun p =>
          approvalFor (env.allowance p.1) p.1 txTo p.2
        let calls := approvalSteps ++
          [{ «to» := txTo, data := .raw txData, value := txValue.getD 0 }]
        { status := .confirming, error := none, prepareInvoked := true,
          submitted := some calls }
  | _, _, _ =>
    { status := .error, error := some "Missing required parameters",
      prepareInvoked := false, submitted := none }

/-! ### useSendCalls: batch mode with sequential fallback -/

/-- A transaction receipt's status. -/
inductive ReceiptStatus where
  | success
  | reverted
deriving DecidableEq, Repr

/-- The chain as the sequential fallback sees it: `send i call` is the i-th
`sendTransactionAsync` (hash, or thrown wallet error), `wait hash` the
receipt wait (status, or thrown wait error). -/
structure SeqEnv where
  send : Nat → Call → Except String String
  wait : String → Except String ReceiptStatus

/-- The expected hash list `hf s, hf (s+1), …` of length `n`. -/
def hashList (hf : Nat → String) (s n : Nat) : List String :=
  match n with
  | 0 => []
  | m + 1 => hf s :: hashList hf (s + 1) m

/-- The loop of `executeSequentialMode`, carrying the calls already sent and
the hashes collected: send, then await the receipt, abort on a thrown send,
a thrown wait, or a reverted receipt. -/
def seqGo (env : SeqEnv) : Nat → List Call → List Call → List String →
    (List Call × List String × Option String)
  | _, [], sent, hashes => (sent, hashes, none)
  | i, call :: rest, sent, hashes =>
    match env.send i call with
    | .error e => (sent, hashes, some e)
    | .ok h =>
      match env.wait h with
      | .error e => (sent ++ [call], hashes ++ [h], some e)
      | .ok .reverted => (sent ++ [call], hashes ++ [h],
          some ("Transaction " ++ toString (i + 1) ++ " reverted"))
      | .ok .success => seqGo env (i + 1) rest (sent ++ [call]) (hashes ++ [h])

/-- The result shape of the wrapper (`id`, `mode`, hashes in sequential
mode). -/
structure SendCallsResult where
  id : String
  mode : String
  transactionHashes : Option (List String)
deriving DecidableEq, Repr

/-- What a `sendCalls` run did: the atomic batches submitted (batch mode),
the individual transactions submitted in order (sequential mode), and the
returned/thrown result. -/
structure SendOutcome where
  sentBatches : List (List Call)
  sentTxs : List Call
  result : Except String SendCallsResult
deriving DecidableEq, Repr

/-- `executeSequentialMode`: one transaction at a time, in order, each
awaited before the next; the first transaction hash is the id. -/
def executeSequentialMode (env : SeqEnv) (calls : List Call) : SendOutcome :=
  match seqGo env 0 calls [] [] with
  | (sent, _, some e) => { sentBatches := [], sentTxs := sent, result := .error e }
  | (sent, hashes, none) =>
    { sentBatches := [], sentTxs := sent,
      result := .ok ({ id := hashes.headD "",
                       mode := "sequential",
                       transactionHashes := some hashes }) }

/-- The wrapper `sendCalls`: reject when the wallet is disconnected or the
batch is empty; with EIP-5792 enabled submit the whole batch atomically
(`batchId` models `wagmiSendCalls.data?.id`), otherwise fall back to
sequential execution. -/
def sendCallsModel (connected enable5792 : Bool) (batchId : Option String)
    (env : SeqEnv) (calls : List Call) : SendOutcome :=
  if !connected then
    { sentBatches := [], sentTxs := [], result := .error "Wallet not connected" }
  else if calls.isEmpty then
    { sentBatches := [], sentTxs := [], result := .error "No calls provided" }
  else if enable5792 then
    match batchId with
    | some i =>
      { sentBatches := [calls], sentTxs := [],
        result := .ok ({ id := i, mode := "batch", transactionHashes := none }) }
    | none =>
      { sentBatches := [calls], sentTxs := [], result := .error "No batch ID returned" }
  else executeSequentialMode env calls

/-! ### Concrete orchestrator scenarios -/

/-- A balance row short by 1 USDC-unit (9 USDC held, 10 required). -/
def biShort : BalanceInfo :=
  { address := "0xA0b86991c6218b36c1d19D4a2e9Eb0cE3606eB48", chainId := 1, decimals := 6,
    balance := 9000000, requiredAmount := 10000000, hasSufficientBalance := false }

def envIdle : ExecEnv := { prepare := .failure "", allowance := fun _ => .ok 0 }

def envPrepOk : ExecEnv :=
  { prepare := .success "0xrouter" "0xmintcalldata" (some 7)
    allowance := fun addr =>
      if addr = "0xA0b86991c6218b36c1d19D4a2e9Eb0cE3606eB48" then .ok 3 else .ok 1000000 }

def envAllowErr : ExecEnv :=
  { prepare := .success "0xrouter" "0xmintcalldata" none
    allowance := fun addr =>
      if addr = "0xA0b86991c6218b36c1d19D4a2e9Eb0cE3606eB48" then .error "read failed"
      else .ok 1000000 }

def callA : Call :=
  { «to» := "0xA0b86991c6218b36c1d19D4a2e9Eb0cE3606eB48", data := .approve "0xrouter" 10,
    value := 0 }

def callB : Call :=
  { «to» := "0x3c499c542cEF5E3811e1192ce70d8cC03d5c3359", data := .approve "0xrouter" 100,
    value := 0 }

def callM : Call := { «to» := "0xrouter", data := .raw "0xmintcalldata", value := 0 }

def seqEnvRevert : SeqEnv :=
  { send := fun i _ => .ok ("0xhash" ++ toString i)
    wait := fun h => if h = "0xhash1" then .ok .reverted else .ok .success }

/-! ### Arithmetic and scoring bounds -/

theorem mkRat_div (n : ℤ) (d : ℕ) : mkRat n d = (n : ℚ) / (d : ℚ) := by
  rw [Rat.mkRat_eq_divInt, Rat.divInt_eq_div]
  norm_cast

theorem ratMul_eq (a b : ℚ) : ratMul a b = a * b := by
  unfold ratMul
  rw [mkRat_div]
  push_cast
  conv_rhs => rw [← Rat.num_div_den a, ← Rat.num_div_den b]
  rw [div_mul_div_comm]

theorem jsMax_eq (a b : ℚ) : jsMax a b = max a b := (max_def a b).symm

theorem jsMin_eq (a b : ℚ) : jsMin a b = min a b := (min_def a b).symm

theorem countSubseq_le (t q : List Char) : countSubseq t q ≤ q.length := by
  induction t generalizing q with
  | nil => cases q <;> simp [countSubseq]
  | cons c ts ih =>
    cases q with
    | nil => simp [countSubseq]
    | cons qc qs =>
      by_cases h : c == qc <;> simp only [countSubseq, h, if_true, if_false, List.length_cons]
      · have := ih qs
        omega
      · exact ih (qc :: qs)

theorem calculateFuzzyScore_nonneg (t q : String) : 0 ≤ calculateFuzzyScore t q := by
  unfold calculateFuzzyScore
  split
  · norm_num
  split
  · norm_num
  · rw [mkRat_div]
    positivity

theorem calculateFuzzyScore_le_one (t q : String) : calculateFuzzyScore t q ≤ 1 := by
  unfold calculateFuzzyScore
  split
  · norm_num
  next hq =>
  split
  · norm_num
  · rw [mkRat_div]
    rw [div_le_one (by positivity)]
    exact_mod_cast countSubseq_le t.data q.data

theorem calculateFieldScore_nonneg (f q : String) (fz : Bool) :
    0 ≤ calculateFieldScore f q fz := by
  unfold calculateFieldScore
  dsimp only
  have hnn := calculateFuzzyScore_nonneg (strLower f) q
  split_ifs
  · norm_num
  · rw [mkRat_div]; norm_num
  · rw [mkRat_div]; norm_num
  · rw [ratMul_eq, mkRat_div]; nlinarith
  · norm_num
  · norm_num

theorem calculateFieldScore_le_one (f q : String) (fz : Bool) :
    calculateFieldScore f q fz ≤ 1 := by
  unfold calculateFieldScore
  dsimp only
  have h1 := calculateFuzzyScore_le_one (strLower f) q
  have h2 := calculateFuzzyScore_nonneg (strLower f) q
  split_ifs
  · norm_num
  · rw [mkRat_div]; norm_num
  · rw [mkRat_div]; norm_num
  · rw [ratMul_eq, mkRat_div]; nlinarith
  · norm_num
  · norm_num

/-- Any field that is not an exact match scores at most 0.9. -/
theorem calculateFieldScore_le_of_ne (f q : String) (fz : Bool)
    (h : strLower f ≠ q) : calculateFieldScore f q fz ≤ 9/10 := by
  unfold calculateFieldScore
  dsimp only
  have h1 := calculateFuzzyScore_le_one (strLower f) q
  have h2 := calculateFuzzyScore_nonneg (strLower f) q
  split_ifs with he
  · exact absurd he h
  · rw [mkRat_div]; norm_num
  · rw [mkRat_div]; norm_num
  · rw [ratMul_eq, mkRat_div]; nlinarith
  · norm_num
  · norm_num

/-- An exact (case-insensitive) field match scores exactly 1. -/
theorem calculateFieldScore_of_eq (f q : String) (fz : Bool)
    (h : strLower f = q) : calculateFieldScore f q fz = 1 := by
  unfold calculateFieldScore
  rw [if_pos h]

theorem ratMul_le (s w C : ℚ) (_h0 : 0 ≤ s) (h1 : s ≤ 1) (hw : 0 ≤ w) (hwC : w ≤ C) :
    ratMul s w ≤ C := by
  rw [ratMul_eq]; nlinarith

theorem ratMul_le2 (s w C : ℚ) (hs0 : 0 ≤ s) (hsC : s ≤ C) (_hw0 : 0 ≤ w) (hw1 : w ≤ 1) :
    ratMul s w ≤ C := by
  rw [ratMul_eq]; nlinarith

theorem jsMax_le {a b c : ℚ} (h1 : a ≤ c) (h2 : b ≤ c) : jsMax a b ≤ c := by
  rw [jsMax_eq]; exact max_le h1 h2

theorem le_jsMax_left (a b : ℚ) : a ≤ jsMax a b := by
  rw [jsMax_eq]; exact le_max_left a b

theorem le_jsMax_right (a b : ℚ) : b ≤ jsMax a b := by
  rw [jsMax_eq]; exact le_max_right a b

theorem symbolStep_nonneg (s q : String) (fz : Bool) : 0 ≤ (symbolStep s q fz).maxScore := by
  unfold symbolStep
  split_ifs
  · exact le_jsMax_left 0 _
  · exact le_refl 0

theorem symbolStep_le_one (s q : String) (fz : Bool) : (symbolStep s q fz).maxScore ≤ 1 := by
  unfold symbolStep
  split_ifs
  · exact jsMax_le (by norm_num)
      (ratMul_le2 _ _ _ (calculateFieldScore_nonneg _ _ _) (calculateFieldScore_le_one _ _ _)
        (by norm_num) (by norm_num))
  · exact zero_le_one

theorem symbolStep_le_of_ne (s q : String) (fz : Bool) (h : strLower s ≠ q) :
    (symbolStep s q fz).maxScore ≤ 9/10 := by
  unfold symbolStep
  split_ifs
  · exact jsMax_le (by norm_num)
      (ratMul_le2 _ _ _ (calculateFieldScore_nonneg _ _ _) (calculateFieldScore_le_of_ne _ _ _ h)
        (by norm_num) (by norm_num))
  · show (0 : ℚ) ≤ 9/10
    norm_num

theorem symbolStep_exact (s q : String) (fz : Bool) (h : strLower s = q) :
    (symbolStep s q fz).maxScore = 1 ∧ (symbolStep s q fz).exactMatch = true := by
  have h1 := calculateFieldScore_of_eq s q fz h
  unfold symbolStep
  rw [if_pos (by rw [h1]; norm_num)]
  refine ⟨?_, ?_⟩
  · show jsMax 0 (ratMul (calculateFieldScore s q fz) 1) = 1
    rw [h1, ratMul_eq, jsMax_eq]
    norm_num
  · show (strLower s == q) = true
    simp [h]

theorem nameStep_le {acc : ScoreAcc} {C : ℚ} (n q : String) (fz : Bool)
    (hacc : acc.maxScore ≤ C) (hC : (8:ℚ)/10 ≤ C) : (nameStep acc n q fz).maxScore ≤ C := by
  unfold nameStep
  split_ifs
  · exact jsMax_le hacc
      (ratMul_le _ _ _ (calculateFieldScore_nonneg _ _ _) (calculateFieldScore_le_one _ _ _)
        (by norm_num) (by rw [mkRat_div]; push_cast; linarith))
  · exact hacc

theorem le_nameStep (acc : ScoreAcc) (n q : String) (fz : Bool) :
    acc.maxScore ≤ (nameStep acc n q fz).maxScore := by
  unfold nameStep
  split_ifs
  · exact le_jsMax_left _ _
  · exact le_refl _

theorem nameStep_exact_true {acc : ScoreAcc} (n q : String) (fz : Bool)
    (h : acc.exactMatch = true) : (nameStep acc n q fz).exactMatch = true := by
  unfold nameStep
  split_ifs
  · show (acc.exactMatch || (strLower n == q)) = true
    rw [h, Bool.true_or]
  · exact h

theorem addressStep_le {acc : ScoreAcc} {C : ℚ} (a q : String)
    (hacc : acc.maxScore ≤ C) (hC : (9:ℚ)/10 ≤ C) : (addressStep acc a q).maxScore ≤ C := by
  unfold addressStep
  split_ifs
  · exact jsMax_le hacc
      (ratMul_le _ _ _ (calculateFieldScore_nonneg _ _ _) (calculateFieldScore_le_one _ _ _)
        (by norm_num) (by rw [mkRat_div]; push_cast; linarith))
  · exact hacc

theorem le_addressStep (acc : ScoreAcc) (a q : String) :
    acc.maxScore ≤ (addressStep acc a q).maxScore := by
  unfold addressStep
  split_ifs
  · exact le_jsMax_left _ _
  · exact le_refl _

theorem addressStep_exact_true {acc : ScoreAcc} (a q : String)
    (h : acc.exactMatch = true) : (addressStep acc a q).exactMatch = true := by
  unfold addressStep
  split_ifs
  · show (acc.exactMatch || (strLower a == q)) = true
    rw [h, Bool.true_or]
  · exact h

theorem chainStep_le {acc : ScoreAcc} {C : ℚ} (cn : Option String) (q : String) (fz : Bool)
    (hacc : acc.maxScore ≤ C) (hC : (6:ℚ)/10 ≤ C) : (chainStep acc cn q fz).maxScore ≤ C := by
  cases cn with
  | none => simpa only [chainStep] using hacc
  | some cs =>
    simp only [chainStep]
    split_ifs
    · exact hacc
    · exact jsMax_le hacc
        (ratMul_le _ _ _ (calculateFieldScore_nonneg _ _ _) (calculateFieldScore_le_one _ _ _)
          (by norm_num) (by rw [mkRat_div]; push_cast; linarith))
    · exact hacc

theorem le_chainStep (acc : ScoreAcc) (cn : Option String) (q : String) (fz : Bool) :
    acc.maxScore ≤ (chainStep acc cn q fz).maxScore := by
  cases cn with
  | none => exact le_refl _
  | some cs =>
    simp only [chainStep]
    split_ifs
    · exact le_refl _
    · exact le_jsMax_left _ _
    · exact le_refl _

theorem chainStep_exact_eq (acc : ScoreAcc) (cn : Option String) (q : String) (fz : Bool) :
    (chainStep acc cn q fz).exactMatch = acc.exactMatch := by
  cases cn with
  | none => rfl
  | some cs =>
    simp only [chainStep]
    split_ifs <;> rfl

theorem tagStep_le {acc : ScoreAcc} {C : ℚ} (q : String) (fz : Bool) (tag : String)
    (hacc : acc.maxScore ≤ C) (hC : (7:ℚ)/10 ≤ C) : (tagStep q fz acc tag).maxScore ≤ C := by
  unfold tagStep
  split_ifs
  · exact jsMax_le hacc
      (ratMul_le _ _ _ (calculateFieldScore_nonneg _ _ _) (calculateFieldScore_le_one _ _ _)
        (by norm_num) (by rw [mkRat_div]; push_cast; linarith))
  · exact hacc

theorem le_tagStep (q : String) (fz : Bool) (acc : ScoreAcc) (tag : String) :
    acc.maxScore ≤ (tagStep q fz acc tag).maxScore := by
  unfold tagStep
  split_ifs
  · exact le_jsMax_left _ _
  · exact le_refl _

theorem tagStep_exact_eq (q : String) (fz : Bool) (acc : ScoreAcc) (tag : String) :
    (tagStep q fz acc tag).exactMatch = acc.exactMatch := by
  unfold tagStep
  split_ifs <;> rfl

theorem tagsFold_le {C : ℚ} (q : String) (fz : Bool) (l : List String) (acc : ScoreAcc)
    (hacc : acc.maxScore ≤ C) (hC : (7:ℚ)/10 ≤ C) :
    (l.foldl (tagStep q fz) acc).maxScore ≤ C := by
  induction l generalizing acc with
  | nil => exact hacc
  | cons t ts ih => exact ih _ (tagStep_le q fz t hacc hC)

theorem le_tagsFold (q : String) (fz : Bool) (l : List String) (acc : ScoreAcc) :
    acc.maxScore ≤ (l.foldl (tagStep q fz) acc).maxScore := by
  induction l generalizing acc with
  | nil => exact le_refl _
  | cons t ts ih => exact le_trans (le_tagStep q fz acc t) (ih _)

theorem tagsFold_exact_eq (q : String) (fz : Bool) (l : List String) (acc : ScoreAcc) :
    (l.foldl (tagStep q fz) acc).exactMatch = acc.exactMatch := by
  induction l generalizing acc with
  | nil => rfl
  | cons t ts ih => rw [List.foldl_cons, ih, tagStep_exact_eq]

theorem tagsStep_le {acc : ScoreAcc} {C : ℚ} (tags : Option (List String)) (q : String)
    (fz : Bool) (hacc : acc.maxScore ≤ C) (hC : (7:ℚ)/10 ≤ C) :
    (tagsStep acc tags q fz).maxScore ≤ C := by
  cases tags with
  | none => simpa only [tagsStep] using hacc
  | some l => simpa only [tagsStep] using tagsFold_le q fz l acc hacc hC

theorem le_tagsStep (acc : ScoreAcc) (tags : Option (List String)) (q : String) (fz : Bool) :
    acc.maxScore ≤ (tagsStep acc tags q fz).maxScore := by
  cases tags with
  | none => exact le_refl _
  | some l => simpa only [tagsStep] using le_tagsFold q fz l acc

theorem tagsStep_exact_eq (acc : ScoreAcc) (tags : Option (List String)) (q : String)
    (fz : Bool) : (tagsStep acc tags q fz).exactMatch = acc.exactMatch := by
  cases tags with
  | none => rfl
  | some l => simpa only [tagsStep] using tagsFold_exact_eq q fz l acc

theorem scoreTokenTotal_nonneg (t : Token) (n q : String) (fz : Bool) :
    0 ≤ (scoreTokenTotal t n q fz).maxScore := by
  unfold scoreTokenTotal scoreCore
  refine le_trans (symbolStep_nonneg t.symbol q fz) ?_
  refine le_trans (le_nameStep _ n q fz) ?_
  refine le_trans (le_addressStep _ t.address q) ?_
  refine le_trans (le_chainStep _ t.chainName q fz) ?_
  exact le_tagsStep _ t.tags q fz

theorem scoreTokenTotal_le_one (t : Token) (n q : String) (fz : Bool) :
    (scoreTokenTotal t n q fz).maxScore ≤ 1 := by
  unfold scoreTokenTotal scoreCore
  refine tagsStep_le _ _ _ ?_ (by norm_num)
  refine chainStep_le _ _ _ ?_ (by norm_num)
  refine addressStep_le _ _ ?_ (by norm_num)
  refine nameStep_le _ _ _ ?_ (by norm_num)
  exact symbolStep_le_one t.symbol q fz

theorem scoreTokenTotal_le_of_ne (t : Token) (n q : String) (fz : Bool)
    (h : strLower t.symbol ≠ q) : (scoreTokenTotal t n q fz).maxScore ≤ 9/10 := by
  unfold scoreTokenTotal scoreCore
  refine tagsStep_le _ _ _ ?_ (by norm_num)
  refine chainStep_le _ _ _ ?_ (by norm_num)
  refine addressStep_le _ _ ?_ (by norm_num)
  refine nameStep_le _ _ _ ?_ (by norm_num)
  exact symbolStep_le_of_ne t.symbol q fz h

theorem scoreTokenTotal_exact (t : Token) (n q : String) (fz : Bool)
    (h : strLower t.symbol = q) :
    (scoreTokenTotal t n q fz).maxScore = 1 ∧ (scoreTokenTotal t n q fz).exactMatch = true := by
  obtain ⟨h1, h2⟩ := symbolStep_exact t.symbol q fz h
  constructor
  · refine le_antisymm (scoreTokenTotal_le_one t n q fz) ?_
    unfold scoreTokenTotal scoreCore
    calc (1:ℚ) = (symbolStep t.symbol q fz).maxScore := h1.symm
    _ ≤ _ := le_trans (le_nameStep _ n q fz) (le_trans (le_addressStep _ t.address q)
        (le_trans (le_chainStep _ t.chainName q fz) (le_tagsStep _ t.tags q fz)))
  · unfold scoreTokenTotal scoreCore
    rw [tagsStep_exact_eq, chainStep_exact_eq]
    exact addressStep_exact_true _ _ (nameStep_exact_true _ _ _ h2)

/-- A full score of 1 is only reached through an exact symbol match. -/
theorem scoreTokenTotal_eq_one (t : Token) (n q : String) (fz : Bool)
    (h : (scoreTokenTotal t n q fz).maxScore = 1) : strLower t.symbol = q := by
  by_contra hne
  have := scoreTokenTotal_le_of_ne t n q fz hne
  rw [h] at this
  norm_num at this

/-! ### The searchTokens pipeline -/

theorem scoreToken_ok {t : Token} {q : String} {fz : Bool} {acc : ScoreAcc}
    (h : scoreToken t q fz = .ok acc) :
    ∃ n, t.name = some n ∧ acc = scoreTokenTotal t n q fz := by
  unfold scoreToken at h
  cases hn : t.name with
  | none => rw [hn] at h; exact absurd h (by simp)
  | some n =>
    rw [hn] at h
    refine ⟨n, rfl, ?_⟩
    cases h
    rfl

theorem scoreAll_ok_mem {tokens : List Token} {q : String} {fz : Bool}
    {l : List (Token × ScoreAcc)} (h : scoreAll tokens q fz = .ok l) :
    ∀ p ∈ l, p.1 ∈ tokens ∧ ∃ n, p.1.name = some n ∧ p.2 = scoreTokenTotal p.1 n q fz := by
  induction tokens generalizing l with
  | nil =>
    simp only [scoreAll] at h
    cases h
    intro p hp
    exact absurd hp (by simp)
  | cons t ts ih =>
    simp only [scoreAll] at h
    cases hst : scoreToken t q fz with
    | error e => rw [hst] at h; exact absurd h (by simp)
    | ok acc =>
      rw [hst] at h
      cases hsa : scoreAll ts q fz with
      | error e => rw [hsa] at h; exact absurd h (by simp)
      | ok rest =>
        rw [hsa] at h
        cases h
        intro p hp
        rcases List.mem_cons.mp hp with hp | hp
        · subst hp
          obtain ⟨n, hn, hacc⟩ := scoreToken_ok hst
          exact ⟨List.mem_cons_self _ _, n, hn, hacc⟩
        · obtain ⟨hmem, hrest⟩ := ih hsa p hp
          exact ⟨List.mem_cons_of_mem _ hmem, hrest⟩

theorem scoreAll_ok_forall {tokens : List Token} {q : String} {fz : Bool}
    {l : List (Token × ScoreAcc)} (h : scoreAll tokens q fz = .ok l) :
    ∀ t ∈ tokens, ∃ n, t.name = some n ∧ (t, scoreTokenTotal t n q fz) ∈ l := by
  induction tokens generalizing l with
  | nil => intro t ht; exact absurd ht (by simp)
  | cons t ts ih =>
    simp only [scoreAll] at h
    cases hst : scoreToken t q fz with
    | error e => rw [hst] at h; exact absurd h (by simp)
    | ok acc =>
      rw [hst] at h
      cases hsa : scoreAll ts q fz with
      | error e => rw [hsa] at h; exact absurd h (by simp)
      | ok rest =>
        rw [hsa] at h
        cases h
        intro u hu
        rcases List.mem_cons.mp hu with hu | hu
        · subst hu
          obtain ⟨n, hn, hacc⟩ := scoreToken_ok hst
          exact ⟨n, hn, by rw [← hacc]; exact List.mem_cons_self _ _⟩
        · obtain ⟨n, hn, hmem⟩ := ih hsa u hu
          exact ⟨n, hn, List.mem_cons_of_mem _ hmem⟩

theorem scoreAll_ok_of_names {tokens : List Token} {q : String} {fz : Bool}
    (h : ∀ t ∈ tokens, t.name.isSome) :
    ∃ l, scoreAll tokens q fz = .ok l := by
  induction tokens with
  | nil => exact ⟨[], rfl⟩
  | cons t ts ih =>
    obtain ⟨l, hl⟩ := ih fun u hu => h u (List.mem_cons_of_mem _ hu)
    have hname := h t (List.mem_cons_self _ _)
    cases hn : t.name with
    | none => rw [hn] at hname; exact absurd hname (by simp)
    | some n =>
      refine ⟨(t, scoreTokenTotal t n q fz) :: l, ?_⟩
      simp only [scoreAll, scoreToken, hn, hl]

/-- Inversion of `searchTokens` for a non-blank query. -/
theorem searchTokens_ok_nonblank {tokens : List Token} {query : String} {opts : SearchOptions}
    {res : List SearchResult} (hb : isBlank query = false)
    (h : searchTokens tokens query opts = .ok res) :
    ∃ scored, scoreAll tokens (strLower query) opts.enableFuzzy = .ok scored ∧
      res = (List.insertionSort resRel
        (scored.filterMap fun p => mkResult opts.threshold p.1 p.2)).take opts.maxResults := by
  unfold searchTokens at h
  rw [if_neg (by simp [hb])] at h
  dsimp only at h
  cases hsc : scoreAll tokens (strLower query) opts.enableFuzzy with
  | error e => rw [hsc] at h; exact absurd h (by simp)
  | ok scored =>
    rw [hsc] at h
    cases h
    exact ⟨scored, rfl, rfl⟩

theorem sortResults_sorted (l : List SearchResult) :
    List.Sorted resRel (List.insertionSort resRel l) :=
  List.sorted_insertionSort resRel l

theorem mem_sortResults {a : SearchResult} {l : List SearchResult} :
    a ∈ List.insertionSort resRel l ↔ a ∈ l :=
  (List.perm_insertionSort resRel l).mem_iff

theorem jsMin_eq_left {a b : ℚ} (h : a ≤ b) : jsMin a b = a := by
  rw [jsMin_eq]; exact min_eq_left h

theorem mkResult_some {th : ℚ} {t : Token} {acc : ScoreAcc} {r : SearchResult}
    (h : mkResult th t acc = some r) :
    th ≤ acc.maxScore ∧ r.token = t ∧ r.score = jsMin acc.maxScore 1 ∧
      r.matchedFields = acc.matchedFields ∧ r.exactMatch = acc.exactMatch := by
  unfold mkResult at h
  split_ifs at h with hth
  cases h
  exact ⟨hth, rfl, rfl, rfl, rfl⟩

/-- Every result of the non-blank pipeline comes from a scored token whose
accumulator it reflects. -/
theorem searchTokens_result_origin {tokens : List Token} {query : String}
    {opts : SearchOptions} {res : List SearchResult} {r : SearchResult}
    (hb : isBlank query = false) (h : searchTokens tokens query opts = .ok res)
    (hr : r ∈ res) :
    ∃ t n, t ∈ tokens ∧ t.name = some n ∧
      opts.threshold ≤ (scoreTokenTotal t n (strLower query) opts.enableFuzzy).maxScore ∧
      r.token = t ∧
      r.score = jsMin (scoreTokenTotal t n (strLower query) opts.enableFuzzy).maxScore 1 ∧
      r.exactMatch = (scoreTokenTotal t n (strLower query) opts.enableFuzzy).exactMatch := by
  obtain ⟨scored, hsc, hres⟩ := searchTokens_ok_nonblank hb h
  subst hres
  have hr2 : r ∈ List.insertionSort resRel
      (scored.filterMap fun p => mkResult opts.threshold p.1 p.2) :=
    List.mem_of_mem_take hr
  have hr3 : r ∈ scored.filterMap fun p => mkResult opts.threshold p.1 p.2 :=
    mem_sortResults.mp hr2
  obtain ⟨p, hp, hmk⟩ := List.mem_filterMap.mp hr3
  obtain ⟨hpt, n, hn, hacc⟩ := scoreAll_ok_mem hsc p hp
  obtain ⟨hth, htok, hscore, _, hex⟩ := mkResult_some hmk
  refine ⟨p.1, n, hpt, hn, ?_, htok, ?_, ?_⟩
  · rw [← hacc]; exact hth
  · rw [← hacc]; exact hscore
  · rw [← hacc]; exact hex

theorem jsMin_le_right (a b : ℚ) : jsMin a b ≤ b := by
  rw [jsMin_eq]; exact min_le_right a b

/-- C4 (amended to non-blank queries): every returned result's score lies in
`[threshold, 1]` (and in `[0, 1]`), the output is sorted by
`(exactMatch desc, score desc)`, and at most `maxResults` results are
returned. -/
theorem searchTokens_score_bounds_sorted_truncated
    (tokens : List Token) (query : String) (opts : SearchOptions) (res : List SearchResult)
    (hb : isBlank query = false) (h : searchTokens tokens query opts = .ok res) :
    (∀ r ∈ res, opts.threshold ≤ r.score ∧ 0 ≤ r.score ∧ r.score ≤ 1) ∧
      List.Sorted resRel res ∧ res.length ≤ opts.maxResults := by
  obtain ⟨scored, hsc, hres⟩ := searchTokens_ok_nonblank hb h
  refine ⟨?_, ?_, ?_⟩
  · intro r hr
    obtain ⟨t, n, _, _, hth, _, hscore, _⟩ := searchTokens_result_origin hb h hr
    have h0 := scoreTokenTotal_nonneg t n (strLower query) opts.enableFuzzy
    have h1 := scoreTokenTotal_le_one t n (strLower query) opts.enableFuzzy
    rw [hscore, jsMin_eq_left h1]
    exact ⟨hth, h0, h1⟩
  · subst hres
    exact List.Pairwise.sublist (List.take_sublist _ _) (sortResults_sorted _)
  · subst hres
    exact List.length_take_le _ _

/-- C3 (amended): for a non-blank query that equals some listed token's
symbol up to case, when the threshold is at most 1 and `maxResults` is
positive (as with the default options), the first ranked result is a token
whose symbol equals the query up to case, with `exactMatch` true. -/
theorem searchTokens_exact_symbol_first
    (tokens : List Token) (query : String) (t : Token) (opts : SearchOptions)
    (res : List SearchResult) (hb : isBlank query = false) (ht : t ∈ tokens)
    (hsym : strLower t.symbol = strLower query)
    (hth : opts.threshold ≤ 1) (hmax : 0 < opts.maxResults)
    (h : searchTokens tokens query opts = .ok res) :
    res.head?.map (fun r => r.exactMatch) = some true ∧
      res.head?.map (fun r => strLower r.token.symbol) = some (strLower query) := by
  obtain ⟨scored, hsc, hres⟩ := searchTokens_ok_nonblank hb h
  obtain ⟨n, hn, hmem⟩ := scoreAll_ok_forall hsc t ht
  obtain ⟨hms, hex⟩ := scoreTokenTotal_exact t n (strLower query) opts.enableFuzzy hsym
  set acc := scoreTokenTotal t n (strLower query) opts.enableFuzzy with haccdef
  have hmk : mkResult opts.threshold t acc =
      some ⟨t, jsMin acc.maxScore 1, acc.matchedFields, acc.exactMatch⟩ := by
    unfold mkResult
    rw [if_pos (by rw [hms]; exact hth)]
  have hrtmem : (⟨t, jsMin acc.maxScore 1, acc.matchedFields, acc.exactMatch⟩ : SearchResult) ∈
      scored.filterMap fun p => mkResult opts.threshold p.1 p.2 :=
    List.mem_filterMap.mpr ⟨(t, acc), hmem, hmk⟩
  have hsorted := sortResults_sorted (scored.filterMap fun p => mkResult opts.threshold p.1 p.2)
  have hmem2 := mem_sortResults.mpr hrtmem
  cases hs : List.insertionSort resRel
      (scored.filterMap fun p => mkResult opts.threshold p.1 p.2) with
  | nil => rw [hs] at hmem2; exact absurd hmem2 (by simp)
  | cons r0 rest =>
    obtain ⟨k, hk⟩ : ∃ k, opts.maxResults = k + 1 := ⟨opts.maxResults - 1, by omega⟩
    have hres0 : res = r0 :: rest.take k := by rw [hres, hs, hk, List.take_succ_cons]
    have hr0res : r0 ∈ res := by rw [hres0]; exact List.mem_cons_self _ _
    obtain ⟨t0, n0, _, _, _, htok0, hscore0, _⟩ := searchTokens_result_origin hb h hr0res
    have hm0le := scoreTokenTotal_le_one t0 n0 (strLower query) opts.enableFuzzy
    have hrtscore : jsMin acc.maxScore 1 = 1 := by rw [hms]; exact jsMin_eq_left (le_refl 1)
    have hkey : r0.exactMatch = true ∧ (1:ℚ) ≤ r0.score := by
      rw [hs] at hmem2
      rcases List.mem_cons.mp hmem2 with heq | hmem3
      · rw [← heq]
        exact ⟨hex, le_of_eq hrtscore.symm⟩
      · have hrel : resRel r0 ⟨t, jsMin acc.maxScore 1, acc.matchedFields, acc.exactMatch⟩ :=
          List.rel_of_sorted_cons (hs ▸ hsorted) _ hmem3
        unfold resRel resBefore at hrel
        simp only [hex, Bool.not_true, Bool.and_false, Bool.false_or, hrtscore,
          Bool.and_eq_true, beq_iff_eq, decide_eq_true_eq] at hrel
        exact ⟨hrel.1, hrel.2⟩
    have hscorele : r0.score ≤ 1 := by
      rw [hscore0]; exact jsMin_le_right _ _
    have hscore1 : r0.score = 1 := le_antisymm hscorele hkey.2
    have hm0 : (scoreTokenTotal t0 n0 (strLower query) opts.enableFuzzy).maxScore = 1 := by
      rw [hscore1] at hscore0
      rw [jsMin_eq_left hm0le] at hscore0
      exact hscore0.symm
    have hsym0 := scoreTokenTotal_eq_one t0 n0 (strLower query) opts.enableFuzzy hm0
    rw [hres0]
    exact ⟨by simp [hkey.1], by simp [htok0, hsym0]⟩

/-! ### The filter chain -/

theorem filter_stage_opt {α : Type} (cond : Bool) (p : α → Bool) (l : List α) :
    (if cond then l.filter p else l) = l.filter fun a => if cond then p a else true := by
  cases cond
  · simp
  · simp

theorem stageBool_eq (cond : Bool) (p : Token → Bool) (l : List Token) :
    stageBool cond p l = l.filter fun t => if cond then p t else true := by
  unfold stageBool
  exact filter_stage_opt cond p l

theorem stageRange_eq (ro : Option RangeFilter) (keep : RangeFilter → Token → Bool)
    (l : List Token) : stageRange ro keep l = l.filter (rangeKeepTotal ro keep) := by
  cases ro with
  | none =>
    simp only [stageRange]
    have h : rangeKeepTotal none keep = fun _ : Token => true := funext fun _ => rfl
    rw [h, List.filter_true]
  | some r =>
    simp only [stageRange, rangeKeepTotal]
    exact filter_stage_opt _ _ l

theorem stageCategories_eq (co : Option (List String)) (l : List Token) :
    stageCategories co l = l.filter (categoriesKeepTotal co) := by
  cases co with
  | none =>
    simp only [stageCategories]
    have h : categoriesKeepTotal none = fun _ : Token => true := funext fun _ => rfl
    rw [h, List.filter_true]
  | some cats =>
    simp only [stageCategories, categoriesKeepTotal]
    exact filter_stage_opt _ _ l

/-- The chain of eight conditional filters is one `filter` by the combined
predicate. -/
theorem applyAdvancedFilters_eq_filter (tokens : List Token) (f : AdvancedFilters) :
    applyAdvancedFilters tokens f = tokens.filter (keepAll f) := by
  unfold applyAdvancedFilters
  dsimp only
  simp only [stageRange_eq, stageBool_eq, stageCategories_eq, List.filter_filter]
  rfl

/-! ### Claim theorems, counterexamples and witnesses -/

/-- C7: `applyAdvancedFilters` composed with itself with the same filter
object is idempotent. -/
theorem applyAdvancedFilters_idem (l : List Token) (f : AdvancedFilters) :
    applyAdvancedFilters (applyAdvancedFilters l f) f = applyAdvancedFilters l f := by
  simp only [applyAdvancedFilters_eq_filter, List.filter_filter]
  exact List.filter_congr fun x _ => Bool.and_self _

/-- C10: the `priceRange` and `balanceRange` filters never exclude a token
whose `priceUsd` / `valueUsd` field is absent or `null`: such a token passes
both range predicates and survives `applyAdvancedFilters` with both ranges
set. -/
theorem rangeFilters_keep_missing_fields
    (pr br : RangeFilter) (l : List Token) (t : Token) (htl : t ∈ l)
    (hp : t.priceUsd = none ∨ t.priceUsd = some none)
    (hv : t.valueUsd = none ∨ t.valueUsd = some none) :
    priceKeep pr t = true ∧ balanceKeep br t = true ∧
      t ∈ applyAdvancedFilters l { priceRange := some pr, balanceRange := some br } := by
  have hpk : priceKeep pr t = true := by
    unfold priceKeep
    rcases hp with hp | hp <;> rw [hp]
  have hbk : balanceKeep br t = true := by
    unfold balanceKeep
    rcases hv with hv | hv <;> rw [hv]
  refine ⟨hpk, hbk, ?_⟩
  rw [applyAdvancedFilters_eq_filter]
  refine List.mem_filter.mpr ⟨htl, ?_⟩
  simp [keepAll, rangeKeepTotal, categoriesKeepTotal, hbk, hpk]

/-- C8 (amended): for token records carrying the (type-required) `name`
field, `searchTokens` never throws — the genuinely optional `tags` and
`chainName` fields are skipped when missing and contribute no score (the
token is scored on symbol/name/address alone).  (A record missing `name`
does throw; see the counterexample.) -/
theorem searchTokens_total_on_named_tokens
    (tokens : List Token) (query : String) (opts : SearchOptions)
    (hnames : ∀ t ∈ tokens, t.name.isSome) :
    (searchTokens tokens query opts).toOption.isSome = true ∧
      (∀ (t : Token) (n q : String) (fz : Bool), t.chainName = none → t.tags = none →
        scoreTokenTotal t n q fz = scoreCore t.symbol n t.address q fz) := by
  constructor
  · unfold searchTokens
    split_ifs
    · rfl
    · obtain ⟨l, hl⟩ := @scoreAll_ok_of_names tokens (strLower query) opts.enableFuzzy hnames
      dsimp only
      rw [hl]
      rfl
  · intro t n q fz hc htg
    unfold scoreTokenTotal
    rw [hc, htg]
    rfl

/-- C3 (counterexample to the claim as stated): with two listed tokens whose
symbols both equal the query up to case, the later listed one (`tUSDC`) is
returned with `exactMatch` true but does not appear first (the stable sort
keeps the earlier equal-scored `tUsdcLower` ahead); and for a token whose
symbol is the empty string, the query equal to its symbol is blank, so the
pass-through mode returns it with `exactMatch = false`. -/
theorem searchTokens_exact_first_counterexample :
    ((searchTokens [tUsdcLower, tUSDC] "USDC" {}).map fun res =>
      res.head?.map fun r => r.token) = .ok (some tUsdcLower) ∧
    tUsdcLower ≠ tUSDC ∧
    strLower tUSDC.symbol = strLower "USDC" ∧
    tUSDC ∈ [tUsdcLower, tUSDC] ∧
    ((searchTokens [tEmptySym] "" {}).map fun res =>
      res.head?.map fun r => r.exactMatch) = .ok (some false) ∧
    strLower tEmptySym.symbol = strLower "" := by
  decide

theorem searchTokens_exact_symbol_first_witness :
    ([⟨tUSDC, 1, ["symbol", "name"], true⟩,
      ⟨tBridged, mkRat 9 10, ["symbol", "name"], false⟩] : List SearchResult).head?.map
        (fun r => r.exactMatch) = some true ∧
    ([⟨tUSDC, 1, ["symbol", "name"], true⟩,
      ⟨tBridged, mkRat 9 10, ["symbol", "name"], false⟩] : List SearchResult).head?.map
        (fun r => strLower r.token.symbol) = some (strLower "USDC") :=
  searchTokens_exact_symbol_first [tBridged, tUSDC] "USDC" tUSDC {} _
    (by decide) (by decide) (by decide) (by decide) (by decide) (by decide)

/-- C4 (counterexample to the claim as stated): a blank query is answered in
pass-through mode, which neither applies the threshold nor truncates to
`maxResults`: with `threshold = 0.9` and `maxResults = 1` both returned
results have score `0.5 < 0.9` and two results are returned. -/
theorem searchTokens_bounds_counterexample :
    searchTokens [tUSDC, tBridged] "" { threshold := mkRat 9 10, maxResults := 1 } =
      .ok [⟨tUSDC, mkRat 1 2, [], false⟩, ⟨tBridged, mkRat 1 2, [], false⟩] ∧
    ¬((mkRat 9 10 : ℚ) ≤ mkRat 1 2) ∧
    ¬((2 : Nat) ≤ 1) := by
  decide

theorem searchTokens_bounds_witness :
    (∀ r ∈ ([⟨tUSDC, 1, ["symbol", "name"], true⟩,
        ⟨tBridged, mkRat 9 10, ["symbol", "name"], false⟩] : List SearchResult),
      ({} : SearchOptions).threshold ≤ r.score ∧ 0 ≤ r.score ∧ r.score ≤ 1) ∧
    List.Sorted resRel ([⟨tUSDC, 1, ["symbol", "name"], true⟩,
        ⟨tBridged, mkRat 9 10, ["symbol", "name"], false⟩] : List SearchResult) ∧
    ([⟨tUSDC, 1, ["symbol", "name"], true⟩,
        ⟨tBridged, mkRat 9 10, ["symbol", "name"], false⟩] : List SearchResult).length ≤
      ({} : SearchOptions).maxResults :=
  searchTokens_score_bounds_sorted_truncated [tUSDC, tBridged] "usdc" {} _
    (by decide) (by decide)

/-- C8 (counterexample to the claim as stated): a record missing the `name`
field makes `searchTokens` throw a `TypeError` (the unguarded
`token.name.toLowerCase()` call), rather than scoring the token zero on that
field. -/
theorem searchTokens_missing_name_throws :
    searchTokens [tNoName] "usd" {} =
      .error "TypeError: Cannot read properties of undefined (reading toLowerCase)" ∧
    tNoName.name = none := by
  decide

theorem searchTokens_total_on_named_tokens_witness :
    (searchTokens [tPlain] "usd" {}).toOption.isSome = true ∧
      (∀ (t : Token) (n q : String) (fz : Bool), t.chainName = none → t.tags = none →
        scoreTokenTotal t n q fz = scoreCore t.symbol n t.address q fz) :=
  searchTokens_total_on_named_tokens [tPlain] "usd" {} (by decide)

theorem rangeFilters_keep_missing_fields_witness :
    priceKeep { min := some 1 } tPlain = true ∧
    balanceKeep { max := some 5 } tPlain = true ∧
    tPlain ∈ applyAdvancedFilters [tPlain]
      { priceRange := some { min := some 1 }, balanceRange := some { max := some 5 } } :=
  rangeFilters_keep_missing_fields { min := some 1 } { max := some 5 } [tPlain] tPlain
    (by decide) (by decide) (by decide)

/-- C9 (counterexample to the claim as stated): the adapter does NOT flag a
record whose address is the zero-address sentinel: `balanceToToken` only
recognises the literal string "native" and the lowercase eeee…-marker, so the
zero-address record comes out with `isNative = some false` even though
`TokenUtils.isNativeToken` treats that address as native. -/
theorem balanceToToken_zero_address_not_native :
    zeroAddrRecord.address = "0x0000000000000000000000000000000000000000" ∧
    (balanceToToken zeroAddrRecord).isNative = some false ∧
    isNativeToken { balanceToToken zeroAddrRecord with isNative := some false } = true := by
  decide

/-- C9 (amended): `balanceToToken` flags a token native iff the record's
address is exactly the string "native" or the lowercase eeee…-marker address
(the zero-address sentinel is not recognised by this adapter). -/
theorem balanceToToken_isNative_iff (b : BalanceData) :
    (balanceToToken b).isNative = some true ↔
      (b.address = "native" ∨
        b.address = "0xeeeeeeeeeeeeeeeeeeeeeeeeeeeeeeeeeeeeeeee") := by
  simp [balanceToToken]

/-- C1: when any required balance is insufficient, `execute()` ends back at
`idle`: the preparation backend is not invoked, no batch is submitted and no
error is stored or thrown; the shortfall is surfaced by the precomputed
`balanceError` advisory: "Need X more SYMBOL" (X = requiredAmount − balance
formatted in the token's units) for exactly one insufficient token,
"Insufficient A and B balance" for several. -/
theorem execute_insufficient_balance_idles
    (a b : Token) (o : String) (amtA amtB : Int) (balances : List BalanceInfo) (env : ExecEnv)
    (hins : balances.any (fun bi => !bi.hasSufficientBalance) = true) :
    (execute (some a) (some b) (some o) amtA amtB balances env).status = .idle ∧
    (execute (some a) (some b) (some o) amtA amtB balances env).prepareInvoked = false ∧
    (execute (some a) (some b) (some o) amtA amtB balances env).error = none ∧
    (execute (some a) (some b) (some o) amtA amtB balances env).submitted = none ∧
    (∀ bi : BalanceInfo, balances.filter (fun x => !x.hasSufficientBalance) = [bi] →
      balanceError false (some a) (some b) balances =
        some ("Need " ++ formatUnits (bi.requiredAmount - bi.balance) bi.decimals ++
          " more " ++ getTokenSymbol a b bi.address)) ∧
    (∀ (bi1 bi2 : BalanceInfo) (rest : List BalanceInfo),
      balances.filter (fun x => !x.hasSufficientBalance) = bi1 :: bi2 :: rest →
      balanceError false (some a) (some b) balances =
        some ("Insufficient " ++ String.intercalate " and "
          ((bi1 :: bi2 :: rest).map fun x => getTokenSymbol a b x.address) ++ " balance")) := by
  have hnonempty : balances.isEmpty = false := by
    cases balances with
    | nil => simp at hins
    | cons x xs => rfl
  refine ⟨?_, ?_, ?_, ?_, ?_, ?_⟩
  · simp [execute, hins]
  · simp [execute, hins]
  · simp [execute, hins]
  · simp [execute, hins]
  · intro bi hfil
    simp [balanceError, balanceErrorCore, hnonempty, hfil]
  · intro bi1 bi2 rest hfil
    simp [balanceError, balanceErrorCore, hnonempty, hfil]

/-- C2: after successful preparation (balances sufficient), the submitted
batch is the collected approvals followed by the single mint call; with both
allowance reads succeeding, a non-native token contributes an approval
exactly when its allowance is below its required amount.  Consequently: all
allowances sufficient ⇒ the batch is just the mint call; two non-native
tokens both needing approval ⇒ the batch has exactly 3 calls. -/
theorem execute_batch_approvals_then_mint
    (a b : Token) (o : String) (amtA amtB : Int) (balances : List BalanceInfo) (env : ExecEnv)
    (txTo txData : String) (txValue : Option Int) (alA alB : Int)
    (hbal : balances.any (fun bi => !bi.hasSufficientBalance) = false)
    (hprep : env.prepare = .success txTo txData txValue)
    (hA : env.allowance a.address = .ok alA)
    (hB : env.allowance b.address = .ok alB) :
    (execute (some a) (some b) (some o) amtA amtB balances env).submitted = some
      ((if (!(strLower a.address == strLower zeroAddress)) && decide (alA < amtA) then
          [{ «to» := a.address, data := .approve txTo amtA, value := 0 }] else []) ++
        (if (!(strLower b.address == strLower zeroAddress)) && decide (alB < amtB) then
          [{ «to» := b.address, data := .approve txTo amtB, value := 0 }] else []) ++
        [{ «to» := txTo, data := .raw txData, value := txValue.getD 0 }]) ∧
    (amtA ≤ alA → amtB ≤ alB →
      (execute (some a) (some b) (some o) amtA amtB balances env).submitted =
        some [{ «to» := txTo, data := .raw txData, value := txValue.getD 0 }]) ∧
    (strLower a.address ≠ strLower zeroAddress → strLower b.address ≠ strLower zeroAddress →
      alA < amtA → alB < amtB →
      ((execute (some a) (some b) (some o) amtA amtB balances env).submitted.map
        List.length) = some 3) := by
  have hmain : (execute (some a) (some b) (some o) amtA amtB balances env).submitted = some
      ((if (!(strLower a.address == strLower zeroAddress)) && decide (alA < amtA) then
          [{ «to» := a.address, data := .approve txTo amtA, value := 0 }] else []) ++
        (if (!(strLower b.address == strLower zeroAddress)) && decide (alB < amtB) then
          [{ «to» := b.address, data := .approve txTo amtB, value := 0 }] else []) ++
        [{ «to» := txTo, data := .raw txData, value := txValue.getD 0 }]) := by
    have hbalneg : ¬((balances.any fun bi => !bi.hasSufficientBalance) = true) := by
      rw [hbal]; exact Bool.false_ne_true
    have happA : approvalFor (env.allowance a.address) a.address txTo amtA =
        if alA < amtA then
          some { «to» := a.address, data := .approve txTo amtA, value := 0 }
        else none := by
      rw [hA]
      rfl
    have happB : approvalFor (env.allowance b.address) b.address txTo amtB =
        if alB < amtB then
          some { «to» := b.address, data := .approve txTo amtB, value := 0 }
        else none := by
      rw [hB]
      rfl
    unfold execute
    dsimp only
    rw [if_neg hbalneg, hprep]
    dsimp only
    cases hna : (strLower a.address == strLower zeroAddress) <;>
      cases hnb : (strLower b.address == strLower zeroAddress) <;>
        simp [happA, happB, hna, hnb, List.filterMap_cons, List.filterMap_nil] <;>
          (try split_ifs) <;> (try simp_all)
  refine ⟨hmain, ?_, ?_⟩
  · intro hgeA hgeB
    rw [hmain]
    rw [if_neg (by simp [not_lt.mpr hgeA]), if_neg (by simp [not_lt.mpr hgeB])]
    simp
  · intro hnza hnzb hlta hltb
    rw [hmain]
    rw [if_pos (by simp [hnza, hlta]), if_pos (by simp [hnzb, hltb])]
    rfl

/-- C5: an allowance read that throws is treated as if the allowance were
zero: the full-amount approval is collected unconditionally on the error
path (which coincides with the zero-allowance path whenever the required
amount is positive), so the batch contains the approval for any non-native
token whose read failed (fail-safe, not fail-open). -/
theorem allowance_read_failure_fail_safe
    (e tokenAddr routerAddr : String) (amount : Int)
    (a b : Token) (o : String) (amtA amtB : Int) (balances : List BalanceInfo) (env : ExecEnv)
    (txTo txData : String) (txValue : Option Int)
    (hbal : balances.any (fun bi => !bi.hasSufficientBalance) = false)
    (hprep : env.prepare = .success txTo txData txValue)
    (hAerr : env.allowance a.address = .error e)
    (hna : strLower a.address ≠ strLower zeroAddress) :
    approvalFor (.error e) tokenAddr routerAddr amount =
      some { «to» := tokenAddr, data := .approve routerAddr amount, value := 0 } ∧
    (0 < amount → approvalFor (.error e) tokenAddr routerAddr amount =
      approvalFor (.ok 0) tokenAddr routerAddr amount) ∧
    ({ «to» := a.address, data := .approve txTo amtA, value := 0 } : Call) ∈
      ((execute (some a) (some b) (some o) amtA amtB balances env).submitted.getD []) := by
  have hbalneg : ¬((balances.any fun bi => !bi.hasSufficientBalance) = true) := by
    rw [hbal]; exact Bool.false_ne_true
  have hbool : (strLower a.address == strLower zeroAddress) = false := by
    simp [hna]
  refine ⟨rfl, ?_, ?_⟩
  · intro hpos
    unfold approvalFor
    dsimp only
    rw [if_pos hpos]
  · unfold execute
    dsimp only
    rw [if_neg hbalneg, hprep]
    dsimp only
    simp [hbool, hAerr, approvalFor, List.filterMap_cons]

theorem seqGo_success (env : SeqEnv) (calls : List Call) (hf : Nat → String) :
    ∀ (s : Nat) (sent : List Call) (hashes : List String),
    (∀ (j : Nat) (hj : j < calls.length),
      env.send (s + j) (calls.get ⟨j, hj⟩) = .ok (hf (s + j)) ∧
        env.wait (hf (s + j)) = .ok .success) →
    seqGo env s calls sent hashes =
      (sent ++ calls, hashes ++ hashList hf s calls.length, none) := by
  induction calls with
  | nil => intro s sent hashes _; simp [seqGo, hashList]
  | cons call rest ih =>
    intro s sent hashes h
    obtain ⟨hs0, hw0⟩ := h 0 (by simp)
    rw [Nat.add_zero] at hs0 hw0
    have hget0 : (call :: rest).get ⟨0, by simp⟩ = call := rfl
    rw [hget0] at hs0
    have hrest := ih (s + 1) (sent ++ [call]) (hashes ++ [hf s]) ?_
    · unfold seqGo
      rw [hs0]
      dsimp only
      rw [hw0]
      dsimp only
      rw [hrest]
      simp [hashList, Nat.add_comm]
    · intro j hj
      have := h (j + 1) (by simpa using Nat.succ_lt_succ hj)
      have hshift : s + (j + 1) = s + 1 + j := by omega
      rw [hshift] at this
      exact this

theorem seqGo_abort (env : SeqEnv) (hf : Nat → String) :
    ∀ (calls : List Call) (k s : Nat) (sent : List Call) (hashes : List String)
      (hk : k < calls.length),
    (∀ (j : Nat) (hj : j < k),
      env.send (s + j) (calls.get ⟨j, Nat.lt_trans hj hk⟩) = .ok (hf (s + j)) ∧
        env.wait (hf (s + j)) = .ok .success) →
    env.send (s + k) (calls.get ⟨k, hk⟩) = .ok (hf (s + k)) →
    env.wait (hf (s + k)) = .ok .reverted →
    seqGo env s calls sent hashes =
      (sent ++ calls.take (k + 1), hashes ++ hashList hf s (k + 1),
        some ("Transaction " ++ toString (s + k + 1) ++ " reverted")) := by
  intro calls
  induction calls with
  | nil => intro k s sent hashes hk; exact absurd hk (by simp)
  | cons call rest ih =>
    intro k s sent hashes hk hpre hsend hwait
    cases k with
    | zero =>
      rw [Nat.add_zero] at hsend hwait
      have hget0 : (call :: rest).get ⟨0, hk⟩ = call := rfl
      rw [hget0] at hsend
      unfold seqGo
      rw [hsend]
      dsimp only
      rw [hwait]
      dsimp only
      simp [hashList, Nat.add_zero]
    | succ k0 =>
      obtain ⟨hs0, hw0⟩ := hpre 0 (Nat.succ_pos k0)
      rw [Nat.add_zero] at hs0 hw0
      have hget0 : (call :: rest).get ⟨0, Nat.lt_trans (Nat.succ_pos k0) hk⟩ = call := rfl
      rw [hget0] at hs0
      have hk0 : k0 < rest.length := by simpa using Nat.lt_of_succ_lt_succ hk
      have hrec := ih k0 (s + 1) (sent ++ [call]) (hashes ++ [hf s]) hk0 ?_ ?_ ?_
      · unfold seqGo
        rw [hs0]
        dsimp only
        rw [hw0]
        dsimp only
        rw [hrec]
        have hidx : s + 1 + k0 = s + (k0 + 1) := by omega
        simp [hashList, List.take_succ_cons, hidx]
      · intro j hj
        have := hpre (j + 1) (Nat.succ_lt_succ hj)
        have hshift : s + (j + 1) = s + 1 + j := by omega
        rw [hshift] at this
        exact this
      · have hshift : s + (k0 + 1) = s + 1 + k0 := by omega
        rw [hshift] at hsend
        exact hsend
      · have hshift : s + (k0 + 1) = s + 1 + k0 := by omega
        rw [hshift] at hwait
        exact hwait

/-- C6: during executing the orchestrator hands the approvals-then-mint call
list to `sendCalls`, which prefers atomic submission: with EIP-5792 enabled
the whole list is submitted as a single atomic batch; with atomic submission
unavailable (the `enable5792` flag cleared) the calls are submitted
sequentially in order, each awaited before the next, and the first reverted
transaction aborts the remaining sequence (only the first `k+1` calls are
ever sent, and the run ends in an error). -/
theorem sendCalls_atomic_else_sequential
    (batchId : Option String) (env : SeqEnv) (calls : List Call) (i : String)
    (hf : Nat → String) (k : Nat) (hne : calls ≠ []) :
    (batchId = some i →
      sendCallsModel true true batchId env calls =
        { sentBatches := [calls], sentTxs := [],
          result := .ok ({ id := i, mode := "batch", transactionHashes := none }) }) ∧
    ((∀ (j : Nat) (hj : j < calls.length),
        env.send j (calls.get ⟨j, hj⟩) = .ok (hf j) ∧ env.wait (hf j) = .ok .success) →
      sendCallsModel true false batchId env calls =
        { sentBatches := [], sentTxs := calls,
          result := .ok ({ id := (hashList hf 0 calls.length).headD "",
                           mode := "sequential",
                           transactionHashes := some (hashList hf 0 calls.length) }) }) ∧
    (∀ (hk : k < calls.length),
      (∀ (j : Nat) (hj : j < k),
        env.send j (calls.get ⟨j, Nat.lt_trans hj hk⟩) = .ok (hf j) ∧
          env.wait (hf j) = .ok .success) →
      env.send k (calls.get ⟨k, hk⟩) = .ok (hf k) →
      env.wait (hf k) = .ok .reverted →
      sendCallsModel true false batchId env calls =
        { sentBatches := [], sentTxs := calls.take (k + 1),
          result := .error ("Transaction " ++ toString (k + 1) ++ " reverted") }) := by
  have hemp : calls.isEmpty = false := by
    cases calls with
    | nil => exact absurd rfl hne
    | cons x xs => rfl
  refine ⟨?_, ?_, ?_⟩
  · intro hbid
    simp [sendCallsModel, hemp, hbid]
  · intro hall
    have hrun := seqGo_success env calls hf 0 [] [] ?_
    · simp [sendCallsModel, hemp, executeSequentialMode, hrun]
    · intro j hj
      simpa using hall j hj
  · intro hk hpre hsend hwait
    have hrun := seqGo_abort env hf calls k 0 [] [] hk ?_ ?_ ?_
    · simp [sendCallsModel, hemp, executeSequentialMode, hrun]
    · intro j hj
      simpa using hpre j hj
    · simpa using hsend
    · simpa using hwait

theorem execute_insufficient_balance_idles_witness :
    (execute (some tUSDC) (some tBridged) (some "0xowner") 10000000 5 [biShort]
      envIdle).status = .idle ∧
    (execute (some tUSDC) (some tBridged) (some "0xowner") 10000000 5 [biShort]
      envIdle).prepareInvoked = false ∧
    balanceError false (some tUSDC) (some tBridged) [biShort] = some "Need 1 more USDC" := by
  have h := execute_insufficient_balance_idles tUSDC tBridged "0xowner" 10000000 5 [biShort]
    envIdle (by decide)
  refine ⟨h.1, h.2.1, ?_⟩
  rw [h.2.2.2.2.1 biShort (by decide)]
  decide

theorem execute_batch_approvals_then_mint_witness :
    (execute (some tUSDC) (some tBridged) (some "0xowner") 10 100 [] envPrepOk).submitted =
      some [{ «to» := "0xA0b86991c6218b36c1d19D4a2e9Eb0cE3606eB48",
              data := .approve "0xrouter" 10, value := 0 },
            { «to» := "0xrouter", data := .raw "0xmintcalldata", value := 7 }] := by
  have h := execute_batch_approvals_then_mint tUSDC tBridged "0xowner" 10 100 [] envPrepOk
    "0xrouter" "0xmintcalldata" (some 7) 3 1000000 (by decide) (by decide) (by decide) (by decide)
  rw [h.1]
  decide

theorem allowance_read_failure_fail_safe_witness :
    approvalFor (.error "read failed") "0xT" "0xR" 5 =
      some { «to» := "0xT", data := .approve "0xR" 5, value := 0 } ∧
    ({ «to» := "0xA0b86991c6218b36c1d19D4a2e9Eb0cE3606eB48",
       data := .approve "0xrouter" 10, value := 0 } : Call) ∈
      ((execute (some tUSDC) (some tBridged) (some "0xowner") 10 100 []
        envAllowErr).submitted.getD []) := by
  have h := allowance_read_failure_fail_safe "read failed" "0xT" "0xR" 5 tUSDC tBridged
    "0xowner" 10 100 [] envAllowErr "0xrouter" "0xmintcalldata" none
    (by decide) (by decide) (by decide) (by decide)
  exact ⟨h.1, h.2.2⟩

theorem sendCalls_atomic_else_sequential_witness :
    sendCallsModel true true (some "0xbatch") seqEnvRevert [callA, callB, callM] =
      { sentBatches := [[callA, callB, callM]], sentTxs := [],
        result := .ok ({ id := "0xbatch", mode := "batch", transactionHashes := none }) } ∧
    sendCallsModel true false (some "0xbatch") seqEnvRevert [callA, callB, callM] =
      { sentBatches := [], sentTxs := [callA, callB],
        result := .error "Transaction 2 reverted" } := by
  have h := sendCalls_atomic_else_sequential (some "0xbatch") seqEnvRevert
    [callA, callB, callM] "0xbatch" (fun n => "0xhash" ++ toString n) 1 (by decide)
  refine ⟨h.1 rfl, ?_⟩
  have h3 := h.2.2 (by decide) (by decide) (by decide) (by decide)
  rw [h3]
  decide

end TokenApp
